import Mathlib

/-!
Verification development for the nixt pipeline (lexer, parser, tree-walking
evaluator).  The Rust sources `src/core/lexer.rs`, `src/core/parser.rs` and
`src/core/interpreter.rs` are embedded shallowly below; `utils/token.rs`,
`utils/node.rs` and `utils/element.rs` are not part of the provided sources,
so their data definitions are modelled from the specification (section 3)
and from how the three core files use them.

Modelling conventions:
* Rust `f32` payloads are modelled as exact rationals (`ℚ`); no claim below
  depends on floating-point rounding.
* Rust panics (out-of-bounds indexing, `unimplemented!`, `todo!`) are
  modelled as the distinguished outcome `Abort.panic` (or `RErr.panic` for
  the evaluator).  Loops and recursions that the Rust source drives by
  mutating a cursor are modelled with an explicit fuel argument; running out
  of fuel is the distinguished outcome `Abort.fuelOut` / `RErr.fuelOut`,
  kept separate from panics and from genuine language errors.
* Rust `String` is modelled as Lean `String`; the lexer's source text is a
  `List Char` (one entry per Rust `char`, matching the character-vector
  indexing the lexer uses).
-/

namespace Nixt

/-- Modelled from the spec: the assignment kinds of `utils/node.rs`
(`AssignType` with declare-mutable `Let`, declare-constant `Const`,
reassign `Set`), as used by `parser.rs` and `interpreter.rs`. -/
inductive AssignType where
  | Let | Const | Set
  deriving DecidableEq, Repr

/-- Modelled from the spec: the operator kinds of `utils/node.rs`
(`OperatorType`).  `parser.rs` constructs `Plus`, `Minus`, `Times`, `Div`;
`interpreter.rs` additionally matches `Modulo`, `Equal`, `NotEqual`,
`LessEqual`, `Less`, `Greater`, `GreaterEqual` and has a catch-all arm, so
the enum is modelled with `And`/`Or` as the remaining variants. -/
inductive OperatorType where
  | Plus | Minus | Times | Div | Modulo
  | Equal | NotEqual | LessEqual | Less | Greater | GreaterEqual
  | And | Or
  deriving DecidableEq, Repr

/-- Modelled from the spec: the comparison kinds of `utils/node.rs`
(`CheckType`), as constructed by `parse_verif`. -/
inductive CheckType where
  | Less | LessEqual | Greater | GreaterEqual | Equal | NotEqual | And | Or
  deriving DecidableEq, Repr

/-- Modelled from the spec: the node-kind enum of `utils/node.rs`
(`NodeType`), covering every variant the three core files construct or
match on. -/
inductive NodeType where
  | Block
  | NodeIdentifier (s : String)
  | NodeNumber (n : ℚ)
  | NodeStr (s : String)
  | NodeBool (b : Bool)
  | Operator (op : OperatorType)
  | Check (c : CheckType)
  | Condition
  | Assignement (a : AssignType)
  | None
  | Scope
  | Func
  deriving DecidableEq, Repr

/-- Modelled from the spec: `utils/node.rs`'s `Node` — a node kind plus an
ordered list of children (`get_type`, `get_child`, `add_children`). -/
inductive Node where
  | mk (typ : NodeType) (children : List Node)

/-- The node's kind (Rust `Node::get_type`). -/
def Node.typ : Node → NodeType
  | .mk t _ => t

/-- The node's children (Rust `Node::get_child`). -/
def Node.children : Node → List Node
  | .mk _ c => c

/-- Rust `Node::new`: a node with no children. -/
def Node.new (t : NodeType) : Node := .mk t []

/-- Rust `Node::add_children`: append one child. -/
def Node.add_children : Node → Node → Node
  | .mk t c, child => .mk t (c ++ [child])

/-- Modelled from the spec: the token-kind enum of `utils/token.rs`
(`TokenType`), covering every variant `lexer.rs` emits and `parser.rs`
matches on. -/
inductive TokenType where
  | LeftBrace | RightBrace | LeftParen | RightParen | Comma | Dot
  | Minus | Plus | Star | Slash | Tilde | Equal
  | Less | LessEqual | Greater | GreaterEqual | Percent
  | Number (n : ℚ)
  | Str (s : String)
  | Identifier (s : String)
  | Func | If | Nil | Or | Return | True | False | While
  | Let | Const | Set | And
  | Eof
  deriving DecidableEq, Repr

/-- Modelled from the spec: `utils/token.rs`'s `Token` — kind, literal
source text, and 1-based line number. -/
structure Token where
  typ : TokenType
  text : String
  line : Nat
  deriving DecidableEq, Repr

/-- Modelled from the spec: the runtime value enum of `utils/element.rs`
(`Value`), as used by `interpreter.rs`: numbers, nil, booleans, strings,
lists, and function values (`Func { args, body }`). -/
inductive Value where
  | Number (n : ℚ)
  | Nil
  | Bool (b : Bool)
  | String (s : String)
  | List (l : List Value)
  | Func (args : List String) (body : Node)

/-- Abnormal lexer/parser outcomes: a Rust panic, or fuel exhaustion of the
model (kept distinct from panics; unreachable for the fuel values the
top-level drivers pass). -/
inductive Abort where
  | panic
  | fuelOut
  deriving DecidableEq, Repr

/-- Evaluator outcomes other than success: a language-level error string
(Rust `Err(String)`), a Rust panic, or fuel exhaustion of the model. -/
inductive RErr where
  | msg (s : String)
  | panic
  | fuelOut

/-! ## Evaluator value operations (`interpreter.rs`, lines 185–312)

These are the leaf `Result<Value, String>`-returning methods; they are
non-recursive and take no state. -/

/-- Rust `Interpreter::eq` (interpreter.rs:185). -/
def eq (lhs rhs : Value) : Except RErr Value :=
  match lhs with
  | .Number lh =>
    match rhs with
    | .Number rh => .ok (.Bool (decide (rh = lh)))
    | _ => .ok (.Bool false)
  | .Bool lh =>
    match rhs with
    | .Bool rh => .ok (.Bool (rh == lh))
    | _ => .ok (.Bool false)
  | .String lh =>
    match rhs with
    | .String rh => .ok (.Bool (rh == lh))
    | _ => .ok (.Bool false)
  | .Nil =>
    match rhs with
    | .Nil => .ok (.Bool true)
    | _ => .ok (.Bool false)
  | _ => .ok (.Bool false)

/-- Rust `Interpreter::neq` (interpreter.rs:207). -/
def neq (lhs rhs : Value) : Except RErr Value :=
  match lhs with
  | .Number lh =>
    match rhs with
    | .Number rh => .ok (.Bool (decide (¬ rh = lh)))
    | _ => .ok (.Bool true)
  | .Bool lh =>
    match rhs with
    | .Bool rh => .ok (.Bool (rh != lh))
    | _ => .ok (.Bool true)
  | .String lh =>
    match rhs with
    | .String rh => .ok (.Bool (rh != lh))
    | _ => .ok (.Bool true)
  | .Nil =>
    match rhs with
    | .Nil => .ok (.Bool false)
    | _ => .ok (.Bool true)
  | _ => .ok (.Bool true)

/-- Rust `Interpreter::leq` (interpreter.rs:229).  Note the source compares
`rh <= lh`, i.e. the operands swapped. -/
def leq (lhs rhs : Value) : Except RErr Value :=
  match lhs with
  | .Number lh =>
    match rhs with
    | .Number rh => .ok (.Bool (decide (rh ≤ lh)))
    | _ => .ok .Nil
  | _ => .ok .Nil

/-- Rust `Interpreter::le` (interpreter.rs:238).  Note the source compares
`rh < lh`, i.e. the operands swapped. -/
def le (lhs rhs : Value) : Except RErr Value :=
  match lhs with
  | .Number lh =>
    match rhs with
    | .Number rh => .ok (.Bool (decide (rh < lh)))
    | _ => .ok .Nil
  | _ => .ok .Nil

/-- Rust `Interpreter::geq` (interpreter.rs:248).  Note the source compares
`rh >= lh`; this method is never reached from `proc_operator`. -/
def geq (lhs rhs : Value) : Except RErr Value :=
  match lhs with
  | .Number lh =>
    match rhs with
    | .Number rh => .ok (.Bool (decide (rh ≥ lh)))
    | _ => .ok .Nil
  | _ => .ok .Nil

/-- Rust `Interpreter::ge` (interpreter.rs:258).  Note the source compares
`rh > lh`, i.e. the operands swapped. -/
def ge (lhs rhs : Value) : Except RErr Value :=
  match lhs with
  | .Number lh =>
    match rhs with
    | .Number rh => .ok (.Bool (decide (rh > lh)))
    | _ => .ok .Nil
  | _ => .ok .Nil

/-- Truncation toward zero, used to model Rust's `f32` `%` (remainder with
the sign of the dividend). -/
def rat_trunc (q : ℚ) : ℤ := if 0 ≤ q then ⌊q⌋ else -⌊-q⌋

/-- The remainder operation of Rust's `%` on floats, over ℚ. -/
def rat_rem (a b : ℚ) : ℚ := a - b * (rat_trunc (a / b) : ℚ)

/-- Rust `Interpreter::div` (interpreter.rs:268). -/
def div (lhs rhs : Value) : Except RErr Value :=
  match lhs with
  | .Number lh =>
    match rhs with
    | .Number rh => .ok (.Number (lh / rh))
    | _ => .ok .Nil
  | _ => .ok .Nil

/-- Rust `Interpreter::mul` (interpreter.rs:277). -/
def mul (lhs rhs : Value) : Except RErr Value :=
  match lhs with
  | .Number lh =>
    match rhs with
    | .Number rh => .ok (.Number (lh * rh))
    | _ => .ok .Nil
  | _ => .ok .Nil

/-- Rust `Interpreter::sub` (interpreter.rs:286). -/
def sub (lhs rhs : Value) : Except RErr Value :=
  match lhs with
  | .Number lh =>
    match rhs with
    | .Number rh => .ok (.Number (lh - rh))
    | _ => .ok .Nil
  | _ => .ok .Nil

/-- Rust `Interpreter::add` (interpreter.rs:295). -/
def add (lhs rhs : Value) : Except RErr Value :=
  match lhs with
  | .Number lh =>
    match rhs with
    | .Number rh => .ok (.Number (lh + rh))
    | _ => .ok .Nil
  | _ => .ok .Nil

/-- Rust `Interpreter::modulo` (interpreter.rs:304). -/
def modulo (lhs rhs : Value) : Except RErr Value :=
  match lhs with
  | .Number lh =>
    match rhs with
    | .Number rh => .ok (.Number (rat_rem lh rh))
    | _ => .ok .Nil
  | _ => .ok .Nil

/-! ## Lexer (`lexer.rs`)

State and single left-to-right pass.  The `current`/`start` cursors index
the character vector exactly as in the source.  `advance` past the end of
the source is an out-of-bounds panic in Rust and is modelled as
`Abort.panic`. -/

namespace Lexer

/-- The NUL character the Rust lexer's `peek`/`peek_next` return at end of
input. -/
def nullChar : Char := Char.ofNat 0

/-- The double-quote character. -/
def quoteChar : Char := Char.ofNat 34

/-- The single-quote character. -/
def apostChar : Char := Char.ofNat 39

/-- The opening-brace character. -/
def lbraceChar : Char := Char.ofNat 123

/-- The closing-brace character. -/
def rbraceChar : Char := Char.ofNat 125

/-- Rust `Lexer` struct state (lexer.rs:4): source text, produced tokens,
`start`/`current` cursors, line counter, accumulated errors.  The fixed
keyword table is modelled as the function `is_keyword` below. -/
structure LexSt where
  source : List Char
  tokens : List Token
  start : Nat
  current : Nat
  line : Nat
  errors : List String

/-- Rust `Lexer::is_at_end` (lexer.rs:40). -/
def is_at_end (st : LexSt) : Bool := st.source.length ≤ st.current

/-- Rust `Lexer::peek` (lexer.rs:174): NUL at end of input, else the current
character. -/
def peek (st : LexSt) : Char :=
  if is_at_end st then nullChar else st.source.getD st.current nullChar

/-- Rust `Lexer::peek_next` (lexer.rs:180). -/
def peek_next (st : LexSt) : Char :=
  if st.source.length ≤ st.current + 1 then nullChar
  else st.source.getD (st.current + 1) nullChar

/-- Rust `Lexer::advance` (lexer.rs:204): consume and return the current
character; indexing past the end panics. -/
def advance (st : LexSt) : Except Abort (Char × LexSt) :=
  match st.source.get? st.current with
  | some c => .ok (c, { st with current := st.current + 1 })
  | none => .error .panic

/-- Rust `Lexer::match_` (lexer.rs:193): conditionally consume an expected
character. -/
def match_c (expected : Char) (st : LexSt) : Bool × LexSt :=
  if is_at_end st then (false, st)
  else if st.source.getD st.current nullChar ≠ expected then (false, st)
  else (true, { st with current := st.current + 1 })

/-- The `&source[start..current]` slice as a string. -/
def slice (l : List Char) (a b : Nat) : String := ((l.drop a).take (b - a)).asString

/-- Rust `Lexer::add_token` (lexer.rs:208). -/
def add_token (typ : TokenType) (st : LexSt) : LexSt :=
  { st with tokens := st.tokens ++ [Token.mk typ (slice st.source st.start st.current) st.line] }

/-- Rust `Lexer::is_keyword` (lexer.rs:134) over the fixed keyword table
built in `Lexer::new` (lexer.rs:17). -/
def is_keyword (w : String) : Option TokenType :=
  if w = "func" then some .Func
  else if w = "if" then some .If
  else if w = "nil" then some .Nil
  else if w = "or" then some .Or
  else if w = "ret" then some .Return
  else if w = "true" then some .True
  else if w = "false" then some .False
  else if w = "while" then some .While
  else if w = "let" then some .Let
  else if w = "const" then some .Const
  else if w = "set" then some .Set
  else if w = "and" then some .And
  else none

/-- Rust `is_identifier_allowed` (lexer.rs:223): alphanumeric, `_` or `:`.
(Rust's `is_alphanumeric` is Unicode-aware; ASCII suffices for every claim
below.) -/
def is_identifier_allowed (c : Char) : Bool := c.isAlphanum || c = '_' || c = ':'

/-- Rust `Lexer::multi_line_comment` (lexer.rs:111).  The loop runs while
`peek() != '%' && peek_next() != '%' && !is_at_end()` — a faithful copy of
the source condition — then unconditionally consumes two characters. -/
def multi_line_comment (fuel : Nat) (st : LexSt) : Except Abort LexSt :=
  match fuel with
  | 0 => .error .fuelOut
  | f + 1 =>
    if peek st ≠ '%' ∧ peek_next st ≠ '%' ∧ ¬ is_at_end st then
      let st := if peek st = '\n' then { st with line := st.line + 1 } else st
      match advance st with
      | .ok (_, st) => multi_line_comment f st
      | .error e => .error e
    else
      match advance st with
      | .ok (_, st) =>
        match advance st with
        | .ok (_, st) => .ok st
        | .error e => .error e
      | .error e => .error e

/-- The scanning loop of Rust `Lexer::identifier` (lexer.rs:121). -/
def identifier_loop (fuel : Nat) (st : LexSt) : Except Abort LexSt :=
  match fuel with
  | 0 => .error .fuelOut
  | f + 1 =>
    if is_identifier_allowed (peek st) then
      match advance st with
      | .ok (_, st) => identifier_loop f st
      | .error e => .error e
    else .ok st

/-- Rust `Lexer::identifier` (lexer.rs:121): scan the identifier text, then
emit either the keyword token or an `Identifier` token. -/
def identifier (fuel : Nat) (st : LexSt) : Except Abort LexSt :=
  match identifier_loop fuel st with
  | .error e => .error e
  | .ok st =>
    let text := slice st.source st.start st.current
    match is_keyword text with
    | some k => .ok (add_token k st)
    | none => .ok (add_token (.Identifier text) st)

/-- Digit value of an ASCII digit string. -/
def digits_val (l : List Char) : Nat := l.foldl (fun a c => a * 10 + (c.toNat - 48)) 0

/-- The numeric value of a scanned numeral (optional `-` sign, digits,
optional `.` and fraction digits), modelling the `parse::<f32>()` call at
lexer.rs:153 as an exact rational. -/
def parse_num (l : List Char) : ℚ :=
  let unsigned : List Char → ℚ := fun cs =>
    let intPart := cs.takeWhile (· ≠ '.')
    let frac := (cs.dropWhile (· ≠ '.')).drop 1
    (digits_val intPart : ℚ) + (digits_val frac : ℚ) / ((10 : ℚ) ^ frac.length)
  match l with
  | '-' :: rest => - unsigned rest
  | _ => unsigned l

/-- The digit-scanning loops of Rust `Lexer::number` (lexer.rs:141). -/
def digits_loop (fuel : Nat) (st : LexSt) : Except Abort LexSt :=
  match fuel with
  | 0 => .error .fuelOut
  | f + 1 =>
    if (peek st).isDigit then
      match advance st with
      | .ok (_, st) => digits_loop f st
      | .error e => .error e
    else .ok st

/-- Rust `Lexer::number` (lexer.rs:141): integer digits, optional fraction,
then a `Number` token for the scanned slice. -/
def number (fuel : Nat) (st : LexSt) : Except Abort LexSt :=
  match digits_loop fuel st with
  | .error e => .error e
  | .ok st =>
    let finish : LexSt → LexSt := fun st =>
      add_token (.Number (parse_num ((st.source.drop st.start).take (st.current - st.start)))) st
    if peek st = '.' ∧ (peek_next st).isDigit then
      match advance st with
      | .error e => .error e
      | .ok (_, st) =>
        match digits_loop fuel st with
        | .error e => .error e
        | .ok st => .ok (finish st)
    else .ok (finish st)

/-- The scanning loop of Rust `Lexer::string` (lexer.rs:158). -/
def string_loop (fuel : Nat) (delimiter : Char) (st : LexSt) : Except Abort LexSt :=
  match fuel with
  | 0 => .error .fuelOut
  | f + 1 =>
    if peek st ≠ delimiter ∧ ¬ is_at_end st then
      let st := if peek st = '\n' then { st with line := st.line + 1 } else st
      match advance st with
      | .ok (_, st) => string_loop f delimiter st
      | .error e => .error e
    else .ok st

/-- Rust `Lexer::string` (lexer.rs:158): scan to the matching delimiter; an
unterminated string records an error and emits no token. -/
def string (fuel : Nat) (delimiter : Char) (st : LexSt) : Except Abort LexSt :=
  match string_loop fuel delimiter st with
  | .error e => .error e
  | .ok st =>
    if is_at_end st then
      .ok { st with errors := st.errors ++ [toString st.line ++ " | Unterminated string"] }
    else
      match advance st with
      | .error e => .error e
      | .ok (_, st) => .ok (add_token (.Str (slice st.source (st.start + 1) (st.current - 1))) st)

/-- The line-comment loop of the `'#'` arm of `scan_token` (lexer.rs:83). -/
def line_comment (fuel : Nat) (st : LexSt) : Except Abort LexSt :=
  match fuel with
  | 0 => .error .fuelOut
  | f + 1 =>
    if peek st ≠ '\n' ∧ ¬ is_at_end st then
      match advance st with
      | .ok (_, st) => line_comment f st
      | .error e => .error e
    else .ok st

/-- Rust `Lexer::scan_token` (lexer.rs:43): consume one character and
dispatch.  Written as an if-chain over the consumed character; the Rust
match arms are disjoint, so the order is immaterial. -/
def scan_token (fuel : Nat) (st : LexSt) : Except Abort LexSt :=
  match advance st with
  | .error e => .error e
  | .ok (c, st) =>
    if c = lbraceChar then .ok (add_token .LeftBrace st)
    else if c = rbraceChar then .ok (add_token .RightBrace st)
    else if c = '(' then .ok (add_token .LeftParen st)
    else if c = ')' then .ok (add_token .RightParen st)
    else if c = ',' then .ok (add_token .Comma st)
    else if c = '.' then .ok (add_token .Dot st)
    else if c = '-' then
      if (peek st).isDigit then number fuel st else .ok (add_token .Minus st)
    else if c = '+' then .ok (add_token .Plus st)
    else if c = '*' then .ok (add_token .Star st)
    else if c = '/' then .ok (add_token .Slash st)
    else if c = '~' then .ok (add_token .Tilde st)
    else if c = '=' then .ok (add_token .Equal st)
    else if c = '<' then
      let (m, st) := match_c '=' st
      if m then .ok (add_token .LessEqual st) else .ok (add_token .Less st)
    else if c = '>' then
      let (m, st) := match_c '=' st
      if m then .ok (add_token .GreaterEqual st) else .ok (add_token .Greater st)
    else if c = '#' then line_comment fuel st
    else if c = '%' then
      let (m, st) := match_c '%' st
      if m then multi_line_comment fuel st else .ok (add_token .Percent st)
    else if c = ' ' ∨ c = '\r' ∨ c = '\t' then .ok st
    else if c = quoteChar then string fuel quoteChar st
    else if c = apostChar then string fuel apostChar st
    else if c = '\n' then .ok { st with line := st.line + 1 }
    else if c.isDigit then number fuel st
    else if is_identifier_allowed c then identifier fuel st
    else .ok { st with errors :=
      st.errors ++ [toString st.line ++ " | Unexpected character: " ++ c.toString] }

/-- The `while !is_at_end` loop of Rust `Lexer::scan_tokens` (lexer.rs:212);
each iteration resets `start` and scans one token. -/
def scan_loop (fuel : Nat) (st : LexSt) : Except Abort LexSt :=
  match fuel with
  | 0 => .error .fuelOut
  | f + 1 =>
    if is_at_end st then .ok st
    else
      match scan_token (st.source.length + 1) { st with start := st.current } with
      | .ok st => scan_loop f st
      | .error e => .error e

/-- Rust `Lexer::scan_tokens` (lexer.rs:212): scan the whole source, then
append the terminal `Eof` token. -/
def scan_tokens (st : LexSt) : Except Abort LexSt :=
  match scan_loop (st.source.length + 1) st with
  | .error e => .error e
  | .ok st => .ok { st with tokens := st.tokens ++ [Token.mk .Eof "" st.line] }

/-- Rust `Lexer::new` (lexer.rs:16). -/
def initSt (src : String) : LexSt :=
  { source := src.toList, tokens := [], start := 0, current := 0, line := 1, errors := [] }

end Lexer

/-- The pipeline operation `tokenize(source) -> (tokens, lexical_errors)`:
`Lexer::new` followed by `scan_tokens`, with the accumulated error list
(`get_errors`, returned here as a plain list). -/
def tokenize (src : String) : Except Abort (List Token × List String) :=
  match Lexer.scan_tokens (Lexer.initSt src) with
  | .ok st => .ok (st.tokens, st.errors)
  | .error e => .error e

/-! ## Parser (`parser.rs`)

Recursive descent over the token list.  `advance` past the end of the
token vector is an out-of-bounds panic in Rust, modelled as `Abort.panic`;
the `unimplemented!()`/`todo!()` arms of `parse_verif` likewise.  The
mutually recursive procedures carry an explicit fuel argument. -/

namespace Parser

/-- Rust `Parser` struct state (parser.rs:6). -/
structure PState where
  tokens : List Token
  ast : Node
  current : Nat
  had_error : Bool
  errors : List String
  line : Nat

/-- Rust `Parser::new` (parser.rs:16). -/
def initSt (tokens : List Token) : PState :=
  { tokens := tokens, ast := Node.new .Block, current := 0,
    had_error := false, errors := [], line := 1 }

/-- Rust `Parser::advance` (parser.rs:26): consume and return the current
token; indexing past the end panics. -/
def advance (s : PState) : Except Abort (Token × PState) :=
  match s.tokens.get? s.current with
  | some t => .ok (t, { s with current := s.current + 1 })
  | none => .error .panic

/-- Rust `Parser::is_at_end` (parser.rs:30): cursor past the end, or the
current token is `Eof`. -/
def is_at_end (s : PState) : Bool :=
  if s.tokens.length ≤ s.current then true
  else
    match s.tokens.get? s.current with
    | some t => t.typ == .Eof
    | none => true

/-- Rust `Parser::peek` (parser.rs:158): `none` iff `is_at_end`. -/
def peek (s : PState) : Option Token :=
  if is_at_end s then none else s.tokens.get? s.current

/-- The parser's `"{line} | Invalid token: {:?}"` messages (the token's
Debug formatting is abstracted to its literal text; no claim depends on
the message's exact shape). -/
def invalid_token_msg (line : Nat) (t : Token) : String :=
  toString line ++ " | Invalid token: " ++ t.text

/-- The `"{line} | Invalid character {:?}"` message of `parse_condition`. -/
def invalid_char_msg (line : Nat) (t : Token) : String :=
  toString line ++ " | Invalid character " ++ t.text

/-- `self.had_error = true; self.errors.push(msg)`. -/
def set_error (msg : String) (s : PState) : PState :=
  { s with had_error := true, errors := s.errors ++ [msg] }

/-- The sequencing of one parser step: on success continue with the
produced value and mutated state, on a panic/abort propagate it.  This is
the control flow the Rust source expresses by a `match`/early return after
each call; it is factored out so the proofs below can speak about it. -/
def andThen {α β : Type} (r : Except Abort (α × PState))
    (k : α → PState → Except Abort (β × PState)) : Except Abort (β × PState) :=
  match r with
  | .error e => .error e
  | .ok (v, s) => k v s

mutual

/-- Rust `Parser::parse_block` (parser.rs:33).  The source's loop-local
accumulator `toret` is lifted to a parameter; callers pass
`Node.new .Block`. -/
def parse_block : Nat → Node → PState → Except Abort (Node × PState)
  | 0, _, _ => .error .fuelOut
  | f + 1, toret, s =>
    match peek s with
    | none => .ok (toret, s)
    | some tok =>
      if tok.typ = .RightParen then
        andThen (advance s) fun _ s => .ok (toret, s)
      else
        andThen (advance s) fun current s =>
        andThen
          (match current.typ with
           | .If => parse_condition f s
           | .LeftParen => parse_block f (Node.new .Block) s
           | .Let | .Const | .Set => parse_assignement f current.typ s
           | .Plus | .Minus | .Star | .Slash => parse_op f current.typ s
           | .Less | .LessEqual | .And | .Or | .Tilde | .Equal | .Greater
           | .GreaterEqual => parse_verif f current.typ s
           | .Identifier str => .ok (Node.new (.NodeIdentifier str), s)
           | _ => .ok (Node.new .None, set_error (invalid_token_msg s.line current) s))
          fun to_add s => parse_block f (toret.add_children to_add) s

/-- Rust `Parser::parse_verif` (parser.rs:65).  Identifier operands fall
into the catch-all error arm; a `Func` operand hits `unimplemented!()`
(lhs) or `todo!()` (rhs), modelled as a panic. -/
def parse_verif : Nat → TokenType → PState → Except Abort (Node × PState)
  | 0, _, _ => .error .fuelOut
  | f + 1, typ, s =>
    let master : Node :=
      match typ with
      | .Less => Node.new (.Check .Less)
      | .LessEqual => Node.new (.Check .LessEqual)
      | .Greater => Node.new (.Check .Greater)
      | .GreaterEqual => Node.new (.Check .GreaterEqual)
      | .Equal => Node.new (.Check .Equal)
      | .Tilde => Node.new (.Check .NotEqual)
      | .And => Node.new (.Check .And)
      | _ => Node.new (.Check .Or)
    andThen (advance s) fun lhs_tok s =>
    andThen
      (match lhs_tok.typ with
       | .LeftParen => parse_block f (Node.new .Block) s
       | .Number n => .ok (Node.new (.NodeNumber n), s)
       | .Str v => .ok (Node.new (.NodeStr v), s)
       | .True => .ok (Node.new (.NodeBool true), s)
       | .False => .ok (Node.new (.NodeBool false), s)
       | .Func => .error .panic
       | _ => .ok (Node.new .None, set_error (invalid_token_msg s.line lhs_tok) s))
      fun lhs s =>
    andThen (advance s) fun rhs_tok s =>
    andThen
      (match rhs_tok.typ with
       | .LeftParen => parse_block f (Node.new .Block) s
       | .Number n => .ok (Node.new (.NodeNumber n), s)
       | .Str v => .ok (Node.new (.NodeStr v), s)
       | .True => .ok (Node.new (.NodeBool true), s)
       | .False => .ok (Node.new (.NodeBool false), s)
       | .Func => .error .panic
       | _ => .ok (Node.new .None, set_error (invalid_token_msg s.line rhs_tok) s))
      fun rhs s =>
    .ok ((master.add_children lhs).add_children rhs, s)

/-- Rust `Parser::parse_condition` (parser.rs:127): condition block,
mandatory then-block (else error placeholder), optional else-block
(placeholder `None` without error). -/
def parse_condition : Nat → PState → Except Abort (Node × PState)
  | 0, _ => .error .fuelOut
  | f + 1, s =>
    andThen (parse_block f (Node.new .Block) s) fun check s =>
    andThen (advance s) fun tif_tok s =>
    andThen
      (match tif_tok.typ with
       | .LeftParen => parse_block f (Node.new .Block) s
       | _ => .ok (Node.new .None, set_error (invalid_char_msg s.line tif_tok) s))
      fun todo_if s =>
    andThen (advance s) fun telse_tok s =>
    andThen
      (match telse_tok.typ with
       | .LeftParen => parse_block f (Node.new .Block) s
       | _ => .ok (Node.new .None, s))
      fun todo_else s =>
    .ok ((((Node.new .Condition).add_children check).add_children
      todo_if).add_children todo_else, s)

/-- Rust `Parser::parse_op` (parser.rs:164): two operands, each a nested
block, number, or string — identifiers and booleans are errors here. -/
def parse_op : Nat → TokenType → PState → Except Abort (Node × PState)
  | 0, _, _ => .error .fuelOut
  | f + 1, typ, s =>
    andThen (advance s) fun first_tok s =>
    andThen
      (match first_tok.typ with
       | .LeftParen => parse_block f (Node.new .Block) s
       | .Number n => .ok (Node.new (.NodeNumber n), s)
       | .Str v => .ok (Node.new (.NodeStr v), s)
       | _ => .ok (Node.new .None, set_error (invalid_token_msg s.line first_tok) s))
      fun first s =>
    andThen (advance s) fun second_tok s =>
    andThen
      (match second_tok.typ with
       | .LeftParen => parse_block f (Node.new .Block) s
       | .Number n => .ok (Node.new (.NodeNumber n), s)
       | .Str v => .ok (Node.new (.NodeStr v), s)
       | _ => .ok (Node.new .None, set_error (invalid_token_msg s.line second_tok) s))
      fun second s =>
    let master : Node :=
      match typ with
      | .Plus => Node.new (.Operator .Plus)
      | .Minus => Node.new (.Operator .Minus)
      | .Star => Node.new (.Operator .Times)
      | _ => Node.new (.Operator .Div)
    .ok ((master.add_children first).add_children second, s)

/-- Rust `Parser::parse_assignement` (parser.rs:205): identifier target and
a value; the produced node is returned *and* additionally registered onto
the parser's top-level tree (`self.ast.add_children(&master)`).  The two
error arms return a `None` placeholder early, without registration.  The
master-building and registration shared by all value forms is the local
continuation `finish`. -/
def parse_assignement : Nat → TokenType → PState → Except Abort (Node × PState)
  | 0, _, _ => .error .fuelOut
  | f + 1, typ, s =>
    andThen (advance s) fun name_tok s =>
    match name_tok.typ with
    | .Identifier str =>
      let name := Node.new (.NodeIdentifier str)
      let finish : Node → PState → Except Abort (Node × PState) := fun value s =>
        let master : Node :=
          match typ with
          | .Const => Node.new (.Assignement .Const)
          | .Set => Node.new (.Assignement .Set)
          | _ => Node.new (.Assignement .Let)
        let master := (master.add_children name).add_children value
        .ok (master, { s with ast := s.ast.add_children master })
      andThen (advance s) fun value_tok s =>
      match value_tok.typ with
      | .Number n => finish (Node.new (.NodeNumber n)) s
      | .Str v => finish (Node.new (.NodeStr v)) s
      | .Identifier v => finish (Node.new (.NodeIdentifier v)) s
      | .True => finish (Node.new (.NodeBool true)) s
      | .False => finish (Node.new (.NodeBool false)) s
      | .Plus | .Minus | .Star | .Slash =>
        andThen (parse_op f value_tok.typ s) finish
      | .LeftParen =>
        andThen (parse_block f (Node.new .Block) s) finish
      | _ => .ok (Node.new .None, set_error (invalid_token_msg s.line value_tok) s)
    | _ => .ok (Node.new .None, set_error (invalid_token_msg s.line name_tok) s)

end

/-- Rust `Parser::parse_token` (parser.rs:251): expects a `(` opening a
block; the local `blck` node it builds is discarded (only
`parse_assignement`'s registrations reach `self.ast`). -/
def parse_token (f : Nat) (s : PState) : Except Abort PState :=
  match advance s with
  | .error e => .error e
  | .ok (current, s) =>
    let s := { s with line := current.line }
    match current.typ with
    | .LeftParen =>
      match parse_block f (Node.new .Block) s with
      | .error e => .error e
      | .ok (_, s) => .ok s
    | _ => .ok (set_error (invalid_token_msg s.line current) s)

/-- The `while !is_at_end` loop of Rust `Parser::parse` (parser.rs:268). -/
def parse_loop : Nat → PState → Except Abort PState
  | 0, _ => .error .fuelOut
  | f + 1, s =>
    if is_at_end s then .ok s
    else
      match parse_token f s with
      | .error e => .error e
      | .ok s => parse_loop f s

end Parser

/-- The pipeline operation `parse(tokens) -> syntax_tree`: run the parser
loop from a fresh state; the result is the top-level tree `self.ast`
together with the final state (carrying `had_error`/`get_errors`). -/
def parse (tokens : List Token) : Except Abort (Node × Parser.PState) :=
  match Parser.parse_loop (2 * tokens.length + 8) (Parser.initSt tokens) with
  | .error e => .error e
  | .ok s => .ok (s.ast, s)

/-! ## Evaluator (`interpreter.rs`)

The scope stack is a Rust `Vec<BTreeMap<String, (Value, bool)>>`: the
innermost scope is the *last* element, `add_scope` pushes at the end,
`remove_scope` pops from the end.  Each mapping is modelled as an
association list with unique keys (`var_def` only inserts names that are
absent, so insertion order and BTreeMap ordering are both immaterial to
every lookup).  State-mutating methods take and return the scope stack;
read-only methods (`&self`) take it as a plain argument. -/

/-- One scope: a mapping from variable name to (value, is-constant flag). -/
abbrev ScopeMap := List (String × Value × Bool)

/-- The evaluator's scope stack (`Interpreter::scopes`); last = innermost. -/
abbrev Scopes := List ScopeMap

/-- Key lookup in one scope mapping (Rust `BTreeMap::contains_key` /
indexing; keys are unique). -/
def lookupScope (sc : ScopeMap) (name : String) : Option (Value × Bool) :=
  match sc.find? (fun e => e.1 == name) with
  | some e => some e.2
  | none => none

/-- Rust `is_defined` (interpreter.rs:5). -/
def is_defined (sc : ScopeMap) (name : String) : Bool :=
  (lookupScope sc name).isSome

/-- Rust `BTreeMap::insert` as used by `var_def` (the key is known to be
absent, so this is a plain extension of the mapping). -/
def scopeInsert (sc : ScopeMap) (name : String) (v : Value) (c : Bool) : ScopeMap :=
  sc ++ [(name, v, c)]

/-- The `*x = (new_val, false)` update through `get_mut` in `var_edit`:
replace the (unique) entry for `name`. -/
def scopeUpdate (sc : ScopeMap) (name : String) (v : Value) : ScopeMap :=
  sc.map (fun e => if e.1 == name then (name, v, false) else e)

/-- Replace the innermost (last) scope, as `self.scopes.last_mut()` does. -/
def setLast (st : Scopes) (sc : ScopeMap) : Scopes := st.dropLast ++ [sc]

/-- The loop of Rust `Interpreter::get_value` (interpreter.rs:113) iterates
indices in reverse; this helper walks the reversed stack. -/
def get_value_rev (l : List ScopeMap) (name : String) : Option Value :=
  match l with
  | [] => none
  | sc :: rest =>
    match lookupScope sc name with
    | some vb => some vb.1
    | none => get_value_rev rest name

/-- Rust `Interpreter::get_value` (interpreter.rs:113): first match from the
innermost (most recently pushed) scope outwards. -/
def get_value (st : Scopes) (name : String) : Option Value :=
  get_value_rev st.reverse name

/-- The `"No scopes available..."` error string. -/
def no_scopes_msg : String :=
  "No scopes available. Consider adding a scope to your program"

/-- The undefined-variable access error string. -/
def undef_access_msg : String := "Attempted to access an undefined variable"

/-- Rust `Interpreter::proc_fun_def` (interpreter.rs:78): package parameter
identifiers of `children[0]` and body `children[1]` into a `Func` value;
indexing a missing child panics. -/
def collect_args (l : List Node) : Except RErr (List String)
  := match l with
  | [] => .ok []
  | a :: rest =>
    match a.typ with
    | .NodeIdentifier s =>
      match collect_args rest with
      | .ok args => .ok (s :: args)
      | .error e => .error e
    | _ => .error (.msg "Invalid argument in function declaration")

/-- Rust `Interpreter::proc_fun_def` (interpreter.rs:78). -/
def proc_fun_def (val : Node) : Except RErr Value :=
  match val.children.get? 0 with
  | none => .error .panic
  | some a =>
    match collect_args a.children with
    | .error e => .error e
    | .ok args =>
      match val.children.get? 1 with
      | none => .error .panic
      | some b => .ok (.Func args b)

mutual

/-- Rust `Interpreter::proc_value` (interpreter.rs:97). -/
def proc_value : Nat → Scopes → Node → Except RErr Value
  | 0, _, _ => .error .fuelOut
  | f + 1, st, val =>
    match val.typ with
    | .NodeNumber n => .ok (.Number n)
    | .NodeStr s => .ok (.String s)
    | .NodeBool b => .ok (.Bool b)
    | .Block => process_inner_block f st val
    | .NodeIdentifier s =>
      match get_value st s with
      | some v => .ok v
      | none => .error (.msg undef_access_msg)
    | _ => .ok .Nil

/-- Rust `Interpreter::process_inner_block` (interpreter.rs:122).  Note the
`Block` arm recurses on `val` itself (not on the child), which does not
terminate in Rust either; the fuel models that. -/
def process_inner_block : Nat → Scopes → Node → Except RErr Value
  | 0, _, _ => .error .fuelOut
  | f + 1, st, val =>
    match val.children.get? 0 with
    | none => .ok .Nil
    | some c0 =>
      match c0.typ with
      | .Func => proc_fun_def c0
      | .Operator op => proc_operator f st op val
      | .Block => process_inner_block f st val
      | _ => .ok .Nil

/-- The operand evaluation of `proc_operator` (interpreter.rs:137 and 153;
the source spells out the same match twice for lhs and rhs). -/
def proc_operand : Nat → Scopes → Node → Except RErr Value
  | 0, _, _ => .error .fuelOut
  | f + 1, st, ch =>
    match ch.typ with
    | .Block => process_inner_block f st ch
    | .NodeNumber n => .ok (.Number n)
    | .NodeStr s => .ok (.String s)
    | .NodeBool b => .ok (.Bool b)
    | .None => .ok .Nil
    | .NodeIdentifier s =>
      match get_value st s with
      | some v => .ok v
      | none => .error (.msg undef_access_msg)
    | _ => .error (.msg "Invalid element")

/-- Rust `Interpreter::proc_operator` (interpreter.rs:134): evaluate both
operand children of `val.children[0]`, then dispatch on the operator kind.
Both `Greater` and `GreaterEqual` dispatch to `ge` in the source; `geq` is
never called. -/
def proc_operator : Nat → Scopes → OperatorType → Node → Except RErr Value
  | 0, _, _, _ => .error .fuelOut
  | f + 1, st, op, val =>
    match val.children.get? 0 with
    | none => .error .panic
    | some oc =>
      match oc.children.get? 0 with
      | none => .error .panic
      | some lnode =>
        match proc_operand f st lnode with
        | .error e => .error e
        | .ok lhs =>
          match oc.children.get? 1 with
          | none => .error .panic
          | some rnode =>
            match proc_operand f st rnode with
            | .error e => .error e
            | .ok rhs =>
              match op with
              | .Div => div lhs rhs
              | .Times => mul lhs rhs
              | .Plus => add lhs rhs
              | .Minus => sub lhs rhs
              | .Modulo => modulo lhs rhs
              | .Equal => eq lhs rhs
              | .NotEqual => neq lhs rhs
              | .LessEqual => leq lhs rhs
              | .Less => le lhs rhs
              | .Greater => ge lhs rhs
              | .GreaterEqual => ge lhs rhs
              | _ => .error (.msg "Invalid operator")

end

/-- Rust `Interpreter::var_edit` (interpreter.rs:24): reassignment.  The
constant check precedes the evaluation of the new value, so a constant
binding rejects the reassignment before `proc_value` runs. -/
def var_edit (f : Nat) (st : Scopes) (nameN valN : Node) : Except RErr Unit × Scopes :=
  match st.getLast? with
  | none => (.error (.msg no_scopes_msg), st)
  | some scope =>
    match nameN.typ with
    | .NodeIdentifier name =>
      match lookupScope scope name with
      | none => (.error (.msg "Attempted to redefine an undefined variable"), st)
      | some (_, cflag) =>
        if cflag then (.error (.msg "Attempted to redefine a constant"), st)
        else
          match proc_value f st valN with
          | .error e => (.error e, st)
          | .ok v => (.ok (), setLast st (scopeUpdate scope name v))
    | _ => (.error (.msg "Found an invalid identifier in variable edition"), st)

/-- The redefinition error string of `var_def` (interpreter.rs:64). -/
def redefine_msg (name : String) : String :=
  "Attempted to redefine variable `" ++ name ++ "` that is already present in the current scope"

/-- Rust `Interpreter::var_def` (interpreter.rs:52): declaration into the
innermost scope; fails if the name is already present there. -/
def var_def (f : Nat) (is_const : Bool) (st : Scopes) (nameN valN : Node) :
    Except RErr Unit × Scopes :=
  match st.getLast? with
  | none => (.error (.msg no_scopes_msg), st)
  | some scope =>
    match nameN.typ with
    | .NodeIdentifier name =>
      if is_defined scope name then (.error (.msg (redefine_msg name)), st)
      else
        match proc_value f st valN with
        | .error e => (.error e, st)
        | .ok v => (.ok (), setLast st (scopeInsert scope name v is_const))
    | _ => (.error (.msg "Found an invalid identifier in variable declaration"), st)

mutual

/-- Rust `Interpreter::process_node` (interpreter.rs:313): iterate over the
node's children. -/
def process_node : Nat → Scopes → Node → Except RErr Unit × Scopes
  | 0, st, _ => (.error .fuelOut, st)
  | f + 1, st, n => process_children f st n.children

/-- The `for instruction in node.get_child()` loop of `process_node`.  A
`Scope` child pushes a fresh mapping, recurses, and pops it — but only on
success: the `?` on the recursive call propagates an error *before*
`remove_scope` runs, so the pushed mapping stays on the stack on error
(the two DEBUG print statements are I/O only and are not modelled). -/
def process_children : Nat → Scopes → List Node → Except RErr Unit × Scopes
  | 0, st, _ => (.error .fuelOut, st)
  | _ + 1, st, [] => (.ok (), st)
  | f + 1, st, instruction :: rest =>
    if instruction.typ = .Scope then
      match process_node f (st ++ [[]]) instruction with
      | (.ok _, st) => process_children f st.dropLast rest
      | r => r
    else if instruction.typ = .Block then
      if st.length = 0 then (.error (.msg no_scopes_msg), st)
      else
        match process_node f st instruction with
        | (.ok _, st) => process_children f st rest
        | r => r
    else
      if st.length = 0 then (.error (.msg no_scopes_msg), st)
      else
        match instruction.typ with
        | .Assignement a =>
          match instruction.children.get? 0, instruction.children.get? 1 with
          | some c0, some c1 =>
            match
              (if a = .Set then var_edit f st c0 c1
               else var_def f (a = .Const) st c0 c1)
            with
            | (.ok _, st) => process_children f st rest
            | r => r
          | _, _ => (.error .panic, st)
        | _ => process_children f st rest

end

/-- Rust `Interpreter::run` (interpreter.rs:348): walk the tree starting
from an empty scope stack. -/
def run (f : Nat) (ast : Node) : Except RErr Unit × Scopes :=
  process_node f [] ast

/-! ## Invariant definitions used by the proofs -/

namespace Parser

/-- How one parser call may change the state: the error flag is monotone
(once set it stays set) and the top-level tree `ast` only grows, by
`Assignement` nodes only (the registrations of `parse_assignement`). -/
def PEvol (s s' : PState) : Prop :=
  (s.had_error = true → s'.had_error = true)
  ∧ ∃ l, s'.ast.children = s.ast.children ++ l
      ∧ ∀ n ∈ l, ∃ a, n.typ = NodeType.Assignement a

/-- `PEvol` lifted to parser results; aborted runs are vacuous. -/
def PResultEvol {α : Type} (s : PState) : Except Abort (α × PState) → Prop
  | .ok p => PEvol s p.2
  | .error _ => True

end Parser

/-! ## Helper lemmas -/

theorem Node.typ_add_children (n c : Node) : (n.add_children c).typ = n.typ := by
  cases n; rfl

theorem Node.children_add_children (n c : Node) :
    (n.add_children c).children = n.children ++ [c] := by
  cases n; rfl

theorem get_value_last (rest : Scopes) (inner : ScopeMap) (name : String) :
    get_value (rest ++ [inner]) name =
      (match lookupScope inner name with
       | some vb => some vb.1
       | none => get_value rest name) := by
  simp only [get_value, List.reverse_append, List.reverse_singleton,
    List.singleton_append, get_value_rev]

theorem get_value_rev_none_iff (l : List ScopeMap) (name : String) :
    get_value_rev l name = none ↔ ∀ sc ∈ l, lookupScope sc name = none := by
  induction l with
  | nil => simp [get_value_rev]
  | cons sc rest ih =>
    cases h : lookupScope sc name with
    | none => simp [get_value_rev, h, ih]
    | some vb => simp [get_value_rev, h]

theorem get_value_none_iff (st : Scopes) (name : String) :
    get_value st name = none ↔ ∀ sc ∈ st, lookupScope sc name = none := by
  rw [get_value, get_value_rev_none_iff]
  simp [List.mem_reverse]

theorem length_setLast (st : Scopes) (sc : ScopeMap) (h : st ≠ []) :
    (setLast st sc).length = st.length := by
  have hpos : 0 < st.length := List.length_pos.mpr h
  simp only [setLast, List.length_append, List.length_dropLast, List.length_singleton]
  omega

/-! ## Claims about the evaluator's value operations (C2, C9) -/

/-- C2: the claim states that `<`, `<=`, `>`, `>=` on two `Number` operands
apply the operator's standard relation to lhs and rhs *in their original
order*.  The code compares the operands swapped (`leq` computes `rhs ≤ lhs`
etc.), and `proc_operator` dispatches `GreaterEqual` to the strict `ge`:
with lhs `1` and rhs `2`, `<=` yields `Bool false` although `1 ≤ 2`, and
`>=` on `1, 1` yields `Bool false` although `1 ≥ 1`. -/
theorem ordering_comparisons_swapped :
    leq (Value.Number 1) (Value.Number 2) = .ok (.Bool false)
    ∧ le (Value.Number 1) (Value.Number 2) = .ok (.Bool false)
    ∧ ge (Value.Number 2) (Value.Number 1) = .ok (.Bool false)
    ∧ proc_operator 4 [] .GreaterEqual
        (Node.mk .Block [Node.mk (.Operator .GreaterEqual)
          [Node.mk (.NodeNumber 1) [], Node.mk (.NodeNumber 1) []]]) = .ok (.Bool false)
    ∧ (1 : ℚ) < 2 ∧ (1 : ℚ) ≥ 1 := by
  refine ⟨rfl, rfl, rfl, rfl, by norm_num, by norm_num⟩

/-- C9: every arithmetic operation (`+ - * / %`) on two `Number` operands
returns `Ok(Number ...)` of the corresponding operation, and returns
`Ok(Nil)` (never an `Err`) whenever at least one operand is not a
`Number`. -/
theorem arithmetic_number_or_nil (l r : Value) :
    (∀ a b, l = .Number a → r = .Number b →
       add l r = .ok (.Number (a + b)) ∧ sub l r = .ok (.Number (a - b)) ∧
       mul l r = .ok (.Number (a * b)) ∧ div l r = .ok (.Number (a / b)) ∧
       modulo l r = .ok (.Number (rat_rem a b)))
    ∧ ((∀ a, l ≠ .Number a) ∨ (∀ b, r ≠ .Number b) →
       add l r = .ok .Nil ∧ sub l r = .ok .Nil ∧ mul l r = .ok .Nil ∧
       div l r = .ok .Nil ∧ modulo l r = .ok .Nil) := by
  constructor
  · rintro a b rfl rfl
    exact ⟨rfl, rfl, rfl, rfl, rfl⟩
  · intro h
    cases l <;> cases r <;>
      first
        | exact ⟨rfl, rfl, rfl, rfl, rfl⟩
        | (exfalso; rcases h with h | h <;> exact h _ rfl)

/-- Witness for C9 at concrete inputs. -/
theorem arithmetic_number_or_nil_witness :
    add (Value.Number 2) (Value.Number 3) = .ok (.Number 5)
    ∧ add (Value.String "a") (Value.Number 1) = .ok .Nil := by
  constructor
  · have h := ((arithmetic_number_or_nil (Value.Number 2) (Value.Number 3)).1
      2 3 rfl rfl).1
    have h5 : (2 : ℚ) + 3 = 5 := by norm_num
    rw [h5] at h
    exact h
  · exact ((arithmetic_number_or_nil (Value.String "a") (Value.Number 1)).2
      (Or.inl (fun a h => by cases h))).1

/-! ## Claims about the lexer (C4, C6) -/

/-- C4: the claim states that a `%% ... %%` block comment is consumed
entirely, emitting no token.  The loop condition of `multi_line_comment`
uses `&&` where the comment structure needs `||`, so it stops at the first
character *followed* by a `%`: for the source `"%%a%%"` the closing
delimiter's second `%` is re-scanned and a `Percent` token is emitted. -/
theorem block_comment_emits_percent_token :
    tokenize "%%a%%" = .ok ([Token.mk .Percent "%" 1, Token.mk .Eof "" 1], []) := rfl

/-- C6: the claim states `tokenize` never panics.  On the source `"%%"`
the comment loop exits at end of input and the two unconditional
`advance()` calls of `multi_line_comment` index past the end of the source
— an out-of-bounds panic. -/
theorem tokenize_panics_on_bare_comment_marker :
    tokenize "%%" = .error .panic := rfl

/-! ## Claims about the parser (C3) -/

/-- C3: the claim states `parse` never panics on an `Eof`-terminated token
sequence.  On `( +` the parser reaches `parse_op`, whose second
unconditional `advance()` indexes one past the end of the token vector —
an out-of-bounds panic. -/
theorem parse_panics_on_truncated_operator :
    parse [Token.mk .LeftParen "(" 1, Token.mk .Plus "+" 1, Token.mk .Eof "" 1]
      = .error .panic := rfl

/-! ## Claims about scope handling (C7, C8) -/

/-- C7: reassigning a name whose innermost-scope binding is constant fails
with the constant-reassignment error and returns the scope stack
unchanged; the result does not depend on the value expression `valN` (or
on the fuel), i.e. the new value is never evaluated. -/
theorem const_reassignment_rejected (f : Nat) (st : Scopes) (sc : ScopeMap)
    (name : String) (v : Value) (ch : List Node) (valN : Node)
    (hlast : st.getLast? = some sc) (hconst : lookupScope sc name = some (v, true)) :
    var_edit f st (Node.mk (.NodeIdentifier name) ch) valN =
      (.error (.msg "Attempted to redefine a constant"), st) := by
  simp [var_edit, hlast, Node.typ, hconst]

/-- Witness for C7 at a concrete state. -/
theorem const_reassignment_rejected_witness :
    var_edit 5 [[("x", Value.Number 1, true)]]
      (Node.mk (.NodeIdentifier "x") []) (Node.mk (.NodeNumber 2) []) =
      (.error (.msg "Attempted to redefine a constant"), [[("x", Value.Number 1, true)]]) :=
  const_reassignment_rejected 5 _ _ "x" (Value.Number 1) [] _ rfl rfl

/-- C8: identifier evaluation resolves through the scope chain innermost
(last-pushed) first: if the innermost scope binds the name, its value is
returned (shadowing any outer binding); if not, the search continues in
the outer stack; and the undefined-variable error is returned if and only
if no scope in the stack contains the name. -/
theorem identifier_resolution_order (f : Nat) (st : Scopes) (name : String) :
    (∀ rest inner v c, st = rest ++ [inner] → lookupScope inner name = some (v, c) →
       proc_value (f + 1) st (Node.mk (.NodeIdentifier name) []) = .ok v)
    ∧ (∀ rest inner, st = rest ++ [inner] → lookupScope inner name = none →
       get_value st name = get_value rest name)
    ∧ (proc_value (f + 1) st (Node.mk (.NodeIdentifier name) []) = .error (.msg undef_access_msg)
       ↔ ∀ sc ∈ st, lookupScope sc name = none) := by
  refine ⟨?_, ?_, ?_⟩
  · rintro rest inner v c rfl h
    simp [proc_value, Node.typ, get_value_last, h]
  · rintro rest inner rfl h
    simp [get_value_last, h]
  · cases hg : get_value st name with
    | some v =>
      have hne : ¬ ∀ sc ∈ st, lookupScope sc name = none := by
        intro hall
        rw [(get_value_none_iff st name).mpr hall] at hg
        cases hg
      simp [proc_value, Node.typ, hg, hne]
    | none =>
      simp only [proc_value, Node.typ, hg]
      exact iff_of_true trivial ((get_value_none_iff st name).mp hg)

/-- Witness for C8: the inner binding of `x` shadows the outer one, and an
unbound name yields the undefined-variable error. -/
theorem identifier_resolution_order_witness :
    proc_value 3 [[("x", Value.Number 3, false)], [("x", Value.Number 4, false)]]
      (Node.mk (.NodeIdentifier "x") []) = .ok (Value.Number 4)
    ∧ proc_value 3 [[("y", Value.Number 1, false)]]
      (Node.mk (.NodeIdentifier "x") []) = .error (.msg undef_access_msg) := by
  constructor
  · exact (identifier_resolution_order 2 _ "x").1 [[("x", Value.Number 3, false)]]
      [("x", Value.Number 4, false)] (Value.Number 4) false rfl rfl
  · refine (identifier_resolution_order 2 _ "x").2.2.mpr ?_
    rintro sc hm
    simp only [List.mem_singleton] at hm
    subst hm
    rfl

namespace Parser

theorem PEvol.rfl (s : PState) : PEvol s s :=
  ⟨fun h => h, [], by simp, by simp⟩

theorem PEvol.of_fields {s s' : PState} (he : s'.had_error = s.had_error)
    (ha : s'.ast = s.ast) : PEvol s s' :=
  ⟨fun h => he.trans h, [], by rw [ha, List.append_nil], by simp⟩

theorem PEvol.trans {s1 s2 s3 : PState} (h12 : PEvol s1 s2) (h23 : PEvol s2 s3) :
    PEvol s1 s3 := by
  obtain ⟨he12, l12, hl12, ha12⟩ := h12
  obtain ⟨he23, l23, hl23, ha23⟩ := h23
  refine ⟨fun h => he23 (he12 h), l12 ++ l23, ?_, ?_⟩
  · rw [hl23, hl12, List.append_assoc]
  · intro n hn
    rcases List.mem_append.mp hn with h | h
    · exact ha12 n h
    · exact ha23 n h

theorem PResultEvol.weaken {α : Type} {s s2 : PState} {r : Except Abort (α × PState)}
    (h : PEvol s s2) (hr : PResultEvol s2 r) : PResultEvol s r := by
  cases r with
  | error e => trivial
  | ok p => exact h.trans hr

theorem advance_evol (s : PState) : PResultEvol s (advance s) := by
  unfold advance
  cases hg : s.tokens.get? s.current with
  | none => trivial
  | some tok => exact PEvol.of_fields rfl rfl

theorem set_error_evol (m : String) (s : PState) : PEvol s (set_error m s) :=
  ⟨fun _ => rfl, [], by simp [set_error], by simp⟩

/-- Sequencing of `andThen`: if the intermediate result only evolves the
state and so does every continuation, so does the whole. -/
theorem evol_seq {α β : Type} {s s2 : PState} {r : Except Abort (α × PState)}
    {k : α → PState → Except Abort (β × PState)}
    (h02 : PEvol s s2) (hr : PResultEvol s2 r)
    (hk : ∀ (v : α) (s3 : PState), PEvol s s3 → PResultEvol s (k v s3)) :
    PResultEvol s (andThen r k) := by
  unfold andThen
  cases r with
  | error e => trivial
  | ok p =>
    obtain ⟨v, s3⟩ := p
    exact hk v s3 (h02.trans hr)

/-- The node `parse_assignement` registers is an `Assignement` node. -/
theorem assign_master_typ (typ : TokenType) (name value : Node) :
    ∃ a, (((match typ with
      | TokenType.Const => Node.new (.Assignement .Const)
      | TokenType.Set => Node.new (.Assignement .Set)
      | _ => Node.new (.Assignement .Let)).add_children name).add_children value).typ
      = NodeType.Assignement a := by
  cases typ <;> exact ⟨_, rfl⟩

/-- Registering an `Assignement` node onto `self.ast` is a `PEvol` step. -/
theorem register_evol {s : PState} {master : Node}
    (hm : ∃ a, master.typ = NodeType.Assignement a) :
    PEvol s { s with ast := s.ast.add_children master } :=
  ⟨fun h => h, [master], by simp [Node.children_add_children], by
    intro n hn
    rw [List.mem_singleton] at hn
    subst hn
    exact hm⟩

mutual

theorem parse_block_evol (f : Nat) (toret : Node) (s : PState) :
    PResultEvol s (parse_block f toret s) := by
  cases f with
  | zero => simp only [parse_block]; trivial
  | succ f =>
    simp only [parse_block]
    split
    · exact PEvol.rfl s
    · split
      · refine evol_seq (PEvol.rfl s) (advance_evol s) ?_
        intro t s1 h01
        exact h01
      · refine evol_seq (PEvol.rfl s) (advance_evol s) ?_
        intro current s1 h01
        refine evol_seq h01 ?_ ?_
        · cases hct : current.typ
          all_goals
            first
            | exact parse_condition_evol f s1
            | exact parse_block_evol f (Node.new .Block) s1
            | exact parse_assignement_evol f _ s1
            | exact parse_op_evol f _ s1
            | exact parse_verif_evol f _ s1
            | exact PEvol.rfl s1
            | exact set_error_evol _ s1
        · intro to_add s2 h02
          exact PResultEvol.weaken h02 (parse_block_evol f (toret.add_children to_add) s2)
termination_by f

theorem parse_verif_evol (f : Nat) (typ : TokenType) (s : PState) :
    PResultEvol s (parse_verif f typ s) := by
  cases f with
  | zero => simp only [parse_verif]; trivial
  | succ f =>
    simp only [parse_verif]
    refine evol_seq (PEvol.rfl s) (advance_evol s) ?_
    intro lhs_tok s1 h01
    refine evol_seq h01 ?_ ?_
    · cases hct : lhs_tok.typ
      all_goals
        first
        | exact parse_block_evol f (Node.new .Block) s1
        | exact PEvol.rfl s1
        | trivial
        | exact set_error_evol _ s1
    · intro lhs s2 h02
      refine evol_seq h02 (advance_evol s2) ?_
      intro rhs_tok s3 h03
      refine evol_seq h03 ?_ ?_
      · cases hct : rhs_tok.typ
        all_goals
          first
          | exact parse_block_evol f (Node.new .Block) s3
          | exact PEvol.rfl s3
          | trivial
          | exact set_error_evol _ s3
      · intro rhs s4 h04
        exact h04
termination_by f

theorem parse_condition_evol (f : Nat) (s : PState) :
    PResultEvol s (parse_condition f s) := by
  cases f with
  | zero => simp only [parse_condition]; trivial
  | succ f =>
    simp only [parse_condition]
    refine evol_seq (PEvol.rfl s) (parse_block_evol f (Node.new .Block) s) ?_
    intro check s1 h01
    refine evol_seq h01 (advance_evol s1) ?_
    intro tif_tok s2 h02
    refine evol_seq h02 ?_ ?_
    · cases hct : tif_tok.typ
      all_goals
        first
        | exact parse_block_evol f (Node.new .Block) s2
        | exact set_error_evol _ s2
    · intro todo_if s3 h03
      refine evol_seq h03 (advance_evol s3) ?_
      intro telse_tok s4 h04
      refine evol_seq h04 ?_ ?_
      · cases hct : telse_tok.typ
        all_goals
          first
          | exact parse_block_evol f (Node.new .Block) s4
          | exact PEvol.rfl s4
      · intro todo_else s5 h05
        exact h05
termination_by f

theorem parse_op_evol (f : Nat) (typ : TokenType) (s : PState) :
    PResultEvol s (parse_op f typ s) := by
  cases f with
  | zero => simp only [parse_op]; trivial
  | succ f =>
    simp only [parse_op]
    refine evol_seq (PEvol.rfl s) (advance_evol s) ?_
    intro first_tok s1 h01
    refine evol_seq h01 ?_ ?_
    · cases hct : first_tok.typ
      all_goals
        first
        | exact parse_block_evol f (Node.new .Block) s1
        | exact PEvol.rfl s1
        | exact set_error_evol _ s1
    · intro first s2 h02
      refine evol_seq h02 (advance_evol s2) ?_
      intro second_tok s3 h03
      refine evol_seq h03 ?_ ?_
      · cases hct : second_tok.typ
        all_goals
          first
          | exact parse_block_evol f (Node.new .Block) s3
          | exact PEvol.rfl s3
          | exact set_error_evol _ s3
      · intro second s4 h04
        exact h04
termination_by f

theorem parse_assignement_evol (f : Nat) (typ : TokenType) (s : PState) :
    PResultEvol s (parse_assignement f typ s) := by
  cases f with
  | zero => simp only [parse_assignement]; trivial
  | succ f =>
    simp only [parse_assignement]
    refine evol_seq (PEvol.rfl s) (advance_evol s) ?_
    intro name_tok s1 h01
    cases hct : name_tok.typ
    all_goals try exact h01.trans (set_error_evol _ s1)
    refine evol_seq h01 (advance_evol s1) ?_
    intro value_tok s2 h02
    cases hvt : value_tok.typ
    all_goals
      first
      | exact h02.trans (register_evol (assign_master_typ typ _ _))
      | exact evol_seq h02 (parse_op_evol f _ s2)
          (fun v s3 h03 => h03.trans (register_evol (assign_master_typ typ _ _)))
      | exact evol_seq h02 (parse_block_evol f (Node.new .Block) s2)
          (fun v s3 h03 => h03.trans (register_evol (assign_master_typ typ _ _)))
      | exact h02.trans (set_error_evol _ s2)
termination_by f

end

end Parser

end Nixt




namespace Nixt

namespace Parser

theorem parse_token_evol (f : Nat) (s s' : PState)
    (h : parse_token f s = .ok s') : PEvol s s' := by
  simp only [parse_token] at h
  split at h
  · exact absurd h (by simp)
  next current s1 hadv =>
    have h01 : PEvol s s1 := by
      have h2 := advance_evol s
      rw [hadv] at h2
      exact h2
    have h01l : PEvol s { s1 with line := current.line } :=
      h01.trans (PEvol.of_fields rfl rfl)
    split at h
    · split at h
      · exact absurd h (by simp)
      · rename_i n s2 hpb
        injection h with hinj
        rw [← hinj]
        have h12 : PEvol { s1 with line := current.line } s2 := by
          have h3 := parse_block_evol f (Node.new .Block) { s1 with line := current.line }
          rw [hpb] at h3
          exact h3
        exact h01l.trans h12
    · cases h
      exact h01l.trans (set_error_evol _ _)

theorem parse_loop_evol (f : Nat) (s s' : PState) (h : parse_loop f s = .ok s') :
    PEvol s s' := by
  induction f generalizing s with
  | zero => simp [parse_loop] at h
  | succ f ih =>
    simp only [parse_loop] at h
    split at h
    · cases h
      exact PEvol.rfl s'
    · split at h
      · exact absurd h (by simp)
      · rename_i s1 hpt
        exact (parse_token_evol f s s1 hpt).trans (ih s1 h)

end Parser

/-- C10: every child of the tree returned by `parse` is an `Assignement`
node — the registrations performed by `parse_assignement` are the only
nodes ever attached to the parser's top-level `ast`, and the `Block` nodes
built for top-level `(`-groups are discarded — so a program with no
`let`/`const`/`set` (e.g. `( + 1 2 )`) parses to a tree with no
children. -/
theorem parse_tree_children_all_assignements :
    (∀ (ts : List Token) (tree : Node) (s' : Parser.PState),
       parse ts = .ok (tree, s') →
       ∀ c ∈ tree.children, ∃ a, c.typ = NodeType.Assignement a)
    ∧ (∃ s', parse [Token.mk .LeftParen "(" 1, Token.mk .Plus "+" 1,
        Token.mk (.Number 1) "1" 1, Token.mk (.Number 2) "2" 1,
        Token.mk .RightParen ")" 1, Token.mk .Eof "" 1]
        = .ok (Node.mk .Block [], s')) := by
  constructor
  · intro ts tree s' h c hc
    unfold parse at h
    split at h
    · exact absurd h (by simp)
    · rename_i s1 hloop
      cases h
      obtain ⟨-, l, hl, ha⟩ := Parser.parse_loop_evol _ _ _ hloop
      refine ha c ?_
      have hinit : (Parser.initSt ts).ast.children = [] := rfl
      rw [hinit, List.nil_append] at hl
      rw [hl] at hc
      exact hc
  · exact ⟨_, rfl⟩

/-- Witness for C10: `( let x 1 )` parses to a tree whose single child is
the registered `Assignement` node. -/
theorem parse_tree_children_all_assignements_witness :
    ∃ a, (Node.mk (NodeType.Assignement AssignType.Let)
      [Node.mk (.NodeIdentifier "x") [], Node.mk (.NodeNumber 1) []]).typ
      = NodeType.Assignement a := by
  refine parse_tree_children_all_assignements.1
    [Token.mk .LeftParen "(" 1, Token.mk .Let "let" 1,
     Token.mk (.Identifier "x") "x" 1, Token.mk (.Number 1) "1" 1,
     Token.mk .RightParen ")" 1, Token.mk .Eof "" 1]
    (Node.mk .Block [Node.mk (NodeType.Assignement AssignType.Let)
      [Node.mk (.NodeIdentifier "x") [], Node.mk (.NodeNumber 1) []]])
    _ rfl
    (Node.mk (NodeType.Assignement AssignType.Let)
      [Node.mk (.NodeIdentifier "x") [], Node.mk (.NodeNumber 1) []])
    (by simp [Node.children])

end Nixt

namespace Nixt

namespace Parser

theorem set_error_had_error (m : String) (s : PState) :
    (set_error m s).had_error = true := rfl

theorem advance_had_error {s : PState} {t : Token} {s' : PState}
    (h : advance s = .ok (t, s')) : s'.had_error = s.had_error := by
  unfold advance at h
  split at h
  · simp only [Except.ok.injEq, Prod.mk.injEq] at h
    obtain ⟨-, rfl⟩ := h
    rfl
  · cases h

end Parser

theorem verif_master_children_head (typ : TokenType) (rhs : Node) :
    (((match typ with
      | TokenType.Less => Node.new (.Check .Less)
      | TokenType.LessEqual => Node.new (.Check .LessEqual)
      | TokenType.Greater => Node.new (.Check .Greater)
      | TokenType.GreaterEqual => Node.new (.Check .GreaterEqual)
      | TokenType.Equal => Node.new (.Check .Equal)
      | TokenType.Tilde => Node.new (.Check .NotEqual)
      | TokenType.And => Node.new (.Check .And)
      | _ => Node.new (.Check .Or)).add_children
        (Node.new .None)).add_children rhs).children.get? 0
      = some (Node.new .None) := by
  cases typ <;> rfl

theorem op_master_children_head (typ : TokenType) (rhs : Node) :
    (((match typ with
      | TokenType.Plus => Node.new (.Operator .Plus)
      | TokenType.Minus => Node.new (.Operator .Minus)
      | TokenType.Star => Node.new (.Operator .Times)
      | _ => Node.new (.Operator .Div)).add_children
        (Node.new .None)).add_children rhs).children.get? 0
      = some (Node.new .None) := by
  cases typ <;> rfl

theorem verif_master_children_get1 (typ : TokenType) (lhs : Node) :
    (((match typ with
      | TokenType.Less => Node.new (.Check .Less)
      | TokenType.LessEqual => Node.new (.Check .LessEqual)
      | TokenType.Greater => Node.new (.Check .Greater)
      | TokenType.GreaterEqual => Node.new (.Check .GreaterEqual)
      | TokenType.Equal => Node.new (.Check .Equal)
      | TokenType.Tilde => Node.new (.Check .NotEqual)
      | TokenType.And => Node.new (.Check .And)
      | _ => Node.new (.Check .Or)).add_children lhs).add_children
        (Node.new .None)).children.get? 1
      = some (Node.new .None) := by
  cases typ <;> rfl

theorem op_master_children_get1 (typ : TokenType) (first : Node) :
    (((match typ with
      | TokenType.Plus => Node.new (.Operator .Plus)
      | TokenType.Minus => Node.new (.Operator .Minus)
      | TokenType.Star => Node.new (.Operator .Times)
      | _ => Node.new (.Operator .Div)).add_children first).add_children
        (Node.new .None)).children.get? 1
      = some (Node.new .None) := by
  cases typ <;> rfl

/-- C5 (amended): an identifier token in *either* operand position — first
or second — is rejected as a syntax error by both comparison
(`parse_verif`) and arithmetic (`parse_op`) operand parsing: any
successful parse has `had_error` set and carries the placeholder `None`
node as that operand's child.  The second-operand parts hypothesise the
run up to the point where the second operand token is read (the first
advance and the first operand's parse result), so they cover every
first-operand shape — nested block, literal, or error placeholder. -/
theorem identifier_operand_rejected_everywhere
    (f : Nat) (typ : TokenType) (s : Parser.PState) (name : String) :
    (∀ tok, s.tokens.get? s.current = some tok → tok.typ = .Identifier name →
       ∀ n s', Parser.parse_verif (f + 1) typ s = .ok (n, s') →
       s'.had_error = true ∧ n.children.get? 0 = some (Node.new .None))
    ∧ (∀ lhs_tok s1 lhs s2 tok,
       Parser.advance s = .ok (lhs_tok, s1) →
       (match lhs_tok.typ with
        | TokenType.LeftParen => Parser.parse_block f (Node.new .Block) s1
        | TokenType.Number q => .ok (Node.new (.NodeNumber q), s1)
        | TokenType.Str v => .ok (Node.new (.NodeStr v), s1)
        | TokenType.True => .ok (Node.new (.NodeBool true), s1)
        | TokenType.False => .ok (Node.new (.NodeBool false), s1)
        | TokenType.Func => .error .panic
        | _ => .ok (Node.new .None,
            Parser.set_error (Parser.invalid_token_msg s1.line lhs_tok) s1))
         = .ok (lhs, s2) →
       s2.tokens.get? s2.current = some tok → tok.typ = .Identifier name →
       ∀ n s', Parser.parse_verif (f + 1) typ s = .ok (n, s') →
       s'.had_error = true ∧ n.children.get? 1 = some (Node.new .None))
    ∧ (∀ tok, s.tokens.get? s.current = some tok → tok.typ = .Identifier name →
       ∀ n s', Parser.parse_op (f + 1) typ s = .ok (n, s') →
       s'.had_error = true ∧ n.children.get? 0 = some (Node.new .None))
    ∧ (∀ first_tok s1 first s2 tok,
       Parser.advance s = .ok (first_tok, s1) →
       (match first_tok.typ with
        | TokenType.LeftParen => Parser.parse_block f (Node.new .Block) s1
        | TokenType.Number q => .ok (Node.new (.NodeNumber q), s1)
        | TokenType.Str v => .ok (Node.new (.NodeStr v), s1)
        | _ => .ok (Node.new .None,
            Parser.set_error (Parser.invalid_token_msg s1.line first_tok) s1))
         = .ok (first, s2) →
       s2.tokens.get? s2.current = some tok → tok.typ = .Identifier name →
       ∀ n s', Parser.parse_op (f + 1) typ s = .ok (n, s') →
       s'.had_error = true ∧ n.children.get? 1 = some (Node.new .None)) := by
  refine ⟨?_, ?_, ?_, ?_⟩
  · intro tok htok hid n s' h
    simp only [Parser.parse_verif, Parser.andThen] at h
    split at h
    · rename_i e hadv
      simp only [Parser.advance, htok] at hadv
      exact Except.noConfusion hadv
    · rename_i lhs_tok s1 hadv
      simp only [Parser.advance, htok, Except.ok.injEq, Prod.mk.injEq] at hadv
      obtain ⟨rfl, rfl⟩ := hadv
      rw [hid] at h
      simp only [] at h
      split at h
      · exact absurd h (by simp)
      · rename_i rhs_tok s3 hadv2
        have hs3 : s3.had_error = true :=
          (Parser.advance_had_error hadv2).trans rfl
        split at h
        · rename_i e hd2
          exact absurd h (by simp)
        · rename_i rhs s4 hd2
          simp only [Except.ok.injEq, Prod.mk.injEq] at h
          obtain ⟨rfl, rfl⟩ := h
          constructor
          · split at hd2
            · rename_i hct
              have hev := Parser.parse_block_evol f (Node.new .Block) s3
              rw [hd2] at hev
              exact hev.1 hs3
            all_goals
              first
              | exact Except.noConfusion hd2
              | (simp only [Except.ok.injEq, Prod.mk.injEq] at hd2
                 obtain ⟨-, rfl⟩ := hd2
                 first
                 | exact hs3
                 | rfl)
          · exact verif_master_children_head typ rhs
  · intro lhs_tok s1 lhs s2 tok hadv hdisp htok2 hid2 n s' h
    simp only [Parser.parse_verif, Parser.andThen] at h
    rw [hadv] at h
    simp only [] at h
    rw [hdisp] at h
    simp only [] at h
    simp only [Parser.advance, htok2] at h
    rw [hid2] at h
    simp only [] at h
    simp only [Except.ok.injEq, Prod.mk.injEq] at h
    obtain ⟨rfl, rfl⟩ := h
    exact ⟨rfl, verif_master_children_get1 typ lhs⟩
  · intro tok htok hid n s' h
    simp only [Parser.parse_op, Parser.andThen] at h
    split at h
    · rename_i e hadv
      simp only [Parser.advance, htok] at hadv
      exact Except.noConfusion hadv
    · rename_i first_tok s1 hadv
      simp only [Parser.advance, htok, Except.ok.injEq, Prod.mk.injEq] at hadv
      obtain ⟨rfl, rfl⟩ := hadv
      rw [hid] at h
      simp only [] at h
      split at h
      · exact absurd h (by simp)
      · rename_i second_tok s3 hadv2
        have hs3 : s3.had_error = true :=
          (Parser.advance_had_error hadv2).trans rfl
        split at h
        · rename_i e hd2
          exact absurd h (by simp)
        · rename_i second s4 hd2
          simp only [Except.ok.injEq, Prod.mk.injEq] at h
          obtain ⟨rfl, rfl⟩ := h
          constructor
          · split at hd2
            · rename_i hct
              have hev := Parser.parse_block_evol f (Node.new .Block) s3
              rw [hd2] at hev
              exact hev.1 hs3
            all_goals
              first
              | exact Except.noConfusion hd2
              | (simp only [Except.ok.injEq, Prod.mk.injEq] at hd2
                 obtain ⟨-, rfl⟩ := hd2
                 first
                 | exact hs3
                 | rfl)
          · exact op_master_children_head typ second
  · intro first_tok s1 first s2 tok hadv hdisp htok2 hid2 n s' h
    simp only [Parser.parse_op, Parser.andThen] at h
    rw [hadv] at h
    simp only [] at h
    rw [hdisp] at h
    simp only [] at h
    simp only [Parser.advance, htok2] at h
    rw [hid2] at h
    simp only [] at h
    simp only [Except.ok.injEq, Prod.mk.injEq] at h
    obtain ⟨rfl, rfl⟩ := h
    exact ⟨rfl, op_master_children_get1 typ first⟩

/-- C5 counterexample: parsing `( < x 1 )` — an identifier as the first
operand of a comparison — sets the parser's error flag and records a
syntax error, refuting the claim that identifier operands are accepted as
comparison operands with no syntax error. -/
theorem comparison_identifier_operand_cex :
    parse [Token.mk .LeftParen "(" 1, Token.mk .Less "<" 1,
      Token.mk (.Identifier "x") "x" 1, Token.mk (.Number 1) "1" 1,
      Token.mk .RightParen ")" 1, Token.mk .Eof "" 1]
    = .ok (Node.mk .Block [],
      { tokens := [Token.mk .LeftParen "(" 1, Token.mk .Less "<" 1,
          Token.mk (.Identifier "x") "x" 1, Token.mk (.Number 1) "1" 1,
          Token.mk .RightParen ")" 1, Token.mk .Eof "" 1],
        ast := Node.mk .Block [], current := 5, had_error := true,
        errors := ["1 | Invalid token: x"], line := 1 }) := rfl

/-- Witness for the amended C5 at concrete parser states: `< x 1` (the
identifier as first operand) and `< 1 x` (the identifier as second
operand). -/
theorem identifier_operand_rejected_everywhere_witness :
    (({ tokens := [Token.mk (.Identifier "x") "x" 1, Token.mk (.Number 1) "1" 1,
          Token.mk .Eof "" 1],
        ast := Node.new .Block, current := 2, had_error := true,
        errors := ["1 | Invalid token: x"], line := 1 } : Parser.PState).had_error = true
      ∧ (Node.mk (.Check .Less)
          [Node.mk .None [], Node.mk (.NodeNumber 1) []]).children.get? 0
        = some (Node.new .None))
    ∧ (({ tokens := [Token.mk (.Number 1) "1" 1, Token.mk (.Identifier "x") "x" 1,
            Token.mk .Eof "" 1],
          ast := Node.new .Block, current := 2, had_error := true,
          errors := ["1 | Invalid token: x"], line := 1 } : Parser.PState).had_error = true
      ∧ (Node.mk (.Check .Less)
          [Node.mk (.NodeNumber 1) [], Node.mk .None []]).children.get? 1
        = some (Node.new .None)) :=
  ⟨(identifier_operand_rejected_everywhere 4 .Less
      (Parser.initSt [Token.mk (.Identifier "x") "x" 1, Token.mk (.Number 1) "1" 1,
        Token.mk .Eof "" 1]) "x").1
      (Token.mk (.Identifier "x") "x" 1) rfl rfl
      (Node.mk (.Check .Less) [Node.mk .None [], Node.mk (.NodeNumber 1) []])
      { tokens := [Token.mk (.Identifier "x") "x" 1, Token.mk (.Number 1) "1" 1,
          Token.mk .Eof "" 1],
        ast := Node.new .Block, current := 2, had_error := true,
        errors := ["1 | Invalid token: x"], line := 1 }
      rfl,
   (identifier_operand_rejected_everywhere 4 .Less
      (Parser.initSt [Token.mk (.Number 1) "1" 1, Token.mk (.Identifier "x") "x" 1,
        Token.mk .Eof "" 1]) "x").2.1
      (Token.mk (.Number 1) "1" 1)
      { tokens := [Token.mk (.Number 1) "1" 1, Token.mk (.Identifier "x") "x" 1,
          Token.mk .Eof "" 1],
        ast := Node.new .Block, current := 1, had_error := false,
        errors := [], line := 1 }
      (Node.new (.NodeNumber 1))
      { tokens := [Token.mk (.Number 1) "1" 1, Token.mk (.Identifier "x") "x" 1,
          Token.mk .Eof "" 1],
        ast := Node.new .Block, current := 1, had_error := false,
        errors := [], line := 1 }
      (Token.mk (.Identifier "x") "x" 1)
      rfl rfl rfl rfl
      (Node.mk (.Check .Less) [Node.mk (.NodeNumber 1) [], Node.mk .None []])
      { tokens := [Token.mk (.Number 1) "1" 1, Token.mk (.Identifier "x") "x" 1,
          Token.mk .Eof "" 1],
        ast := Node.new .Block, current := 2, had_error := true,
        errors := ["1 | Invalid token: x"], line := 1 }
      rfl⟩

end Nixt

namespace Nixt

theorem var_edit_length (f : Nat) (st : Scopes) (a b : Node) :
    (var_edit f st a b).2.length = st.length := by
  unfold var_edit
  split
  · rfl
  · rename_i sc hlast
    have hne : st ≠ [] := by
      intro hemp
      rw [hemp] at hlast
      exact Option.noConfusion hlast
    split
    · split
      · rfl
      · split
        · rfl
        · split
          · rfl
          · exact length_setLast st _ hne
    · rfl

theorem var_def_length (f : Nat) (c : Bool) (st : Scopes) (a b : Node) :
    (var_def f c st a b).2.length = st.length := by
  unfold var_def
  split
  · rfl
  · rename_i sc hlast
    have hne : st ≠ [] := by
      intro hemp
      rw [hemp] at hlast
      exact Option.noConfusion hlast
    split
    · split
      · rfl
      · split
        · rfl
        · exact length_setLast st _ hne
    · rfl

mutual

theorem process_node_len (f : Nat) (st : Scopes) (n : Node) :
    ((process_node f st n).1 = .ok () → (process_node f st n).2.length = st.length)
    ∧ st.length ≤ (process_node f st n).2.length := by
  cases f with
  | zero =>
    refine ⟨fun h => absurd h (by simp [process_node]), ?_⟩
    simp [process_node]
  | succ f =>
    simpa only [process_node] using process_children_len f st n.children
termination_by (f, 0)

theorem process_children_len (f : Nat) (st : Scopes) (l : List Node) :
    ((process_children f st l).1 = .ok () → (process_children f st l).2.length = st.length)
    ∧ st.length ≤ (process_children f st l).2.length := by
  cases f with
  | zero =>
    refine ⟨fun h => absurd h (by simp [process_children]), ?_⟩
    simp [process_children]
  | succ f =>
    cases l with
    | nil => simp [process_children]
    | cons instruction rest =>
      simp only [process_children]
      split
      · -- Scope instruction
        rcases hrec : process_node f (st ++ [[]]) instruction with ⟨res, st1⟩
        have hlen := process_node_len f (st ++ [[]]) instruction
        rw [hrec] at hlen
        simp only [List.length_append, List.length_singleton] at hlen
        cases res with
        | ok u =>
          have h1 : st1.length = st.length + 1 := hlen.1 rfl
          have ih := process_children_len f st1.dropLast rest
          have hd : st1.dropLast.length = st.length := by
            rw [List.length_dropLast, h1]
            omega
          constructor
          · intro hok
            exact (ih.1 hok).trans hd
          · exact le_of_eq_of_le hd.symm ih.2
        | error e =>
          refine ⟨fun h => absurd h (by simp), ?_⟩
          exact Nat.le_of_succ_le hlen.2
      · split
        · -- Block instruction, no scopes
          split
          · exact ⟨fun h => absurd h (by simp), by simp⟩
          · -- Block instruction with scopes
            rcases hrec : process_node f st instruction with ⟨res, st1⟩
            have hlen := process_node_len f st instruction
            rw [hrec] at hlen
            cases res with
            | ok u =>
              have h1 : st1.length = st.length := hlen.1 rfl
              have ih := process_children_len f st1 rest
              constructor
              · intro hok
                exact (ih.1 hok).trans h1
              · exact le_of_eq_of_le h1.symm ih.2
            | error e =>
              refine ⟨fun h => absurd h (by simp), ?_⟩
              exact hlen.2
        · split
          · exact ⟨fun h => absurd h (by simp), by simp⟩
          · -- non-Scope, non-Block instruction with scopes
            split
            · -- Assignement
              split
              · rename_i xt a heq o1 o2 c0 c1 hc0 hc1
                have hiflen : ((if a = AssignType.Set then var_edit f st c0 c1
                    else var_def f (decide (a = AssignType.Const)) st c0 c1)).2.length
                    = st.length := by
                  split
                  · exact var_edit_length f st c0 c1
                  · exact var_def_length f _ st c0 c1
                rcases hva : (if a = AssignType.Set then var_edit f st c0 c1
                    else var_def f (decide (a = AssignType.Const)) st c0 c1) with ⟨res, st1⟩
                rw [hva] at hiflen
                cases res with
                | ok u =>
                  have ih := process_children_len f st1 rest
                  constructor
                  · intro hok
                    exact (ih.1 hok).trans hiflen
                  · exact le_of_eq_of_le hiflen.symm ih.2
                | error e =>
                  refine ⟨fun h => absurd h (by simp), ?_⟩
                  exact le_of_eq hiflen.symm
              · exact ⟨fun h => absurd h (by simp), by simp⟩
            · exact process_children_len f st rest
termination_by (f, 1)

end

/-- C1 counterexample: the claim states that the mapping pushed for a
`Scope` node is popped before returning *even when a child errors*.  In
the code the `?` on the recursive call propagates the error before
`remove_scope` runs: evaluating `Block [Scope [set x 1]]` from the empty
scope stack errors (undefined variable) and leaves the pushed scope on the
stack — final depth 1, initial depth 0. -/
theorem scope_not_popped_on_error :
    process_node 9 [] (Node.mk .Block [Node.mk .Scope [Node.mk (.Assignement .Set)
        [Node.mk (.NodeIdentifier "x") [], Node.mk (.NodeNumber 1) []]]])
      = (.error (.msg "Attempted to redefine an undefined variable"), [[]])
    ∧ ([[]] : Scopes).length ≠ ([] : Scopes).length :=
  ⟨rfl, by simp⟩

/-- C1 (amended): processing a node pushes one fresh mapping per `Scope`
child and pops it only when the children evaluate successfully: on an `Ok`
result the scope-stack depth equals the depth before entering, while on an
`Err` the depth never decreases below the initial depth (the pushed
mapping stays on the stack as the error propagates). -/
theorem scope_depth_restored_only_on_ok (f : Nat) (st : Scopes) (n : Node) :
    ((process_node f st n).1 = .ok () → (process_node f st n).2.length = st.length)
    ∧ st.length ≤ (process_node f st n).2.length :=
  process_node_len f st n

/-- Witness for the amended C1: a successful `Scope` evaluation restores
the depth. -/
theorem scope_depth_restored_only_on_ok_witness :
    (process_node 5 [] (Node.mk .Block [Node.mk .Scope []])).1 = .ok ()
    ∧ (process_node 5 [] (Node.mk .Block [Node.mk .Scope []])).2.length
      = ([] : Scopes).length :=
  ⟨rfl, (scope_depth_restored_only_on_ok 5 [] (Node.mk .Block [Node.mk .Scope []])).1 rfl⟩

end Nixt
